import Mathlib

/-!
Verification of the `MaterialTabBar` / `MaterialTabItem` components
(`src/MaterialTabBar/TabBar.tsx`, `src/MaterialTabBar/TabItem.tsx`).

The components are shallowly embedded: layout rectangles use exact
rational arithmetic, the measured-layout accumulator is an
insertion-ordered association list (mirroring a JS `Map`), reanimated's
`interpolate` is the usual piecewise-linear map over breakpoints, and the
event handlers become pure state-transition functions.
-/

namespace TabBar

/-- An `ItemLayout` record: `{ width, x }` of one tab along the scroll axis. -/
structure ItemLayout where
  width : ℚ
  x : ℚ
deriving DecidableEq, Repr

/-- The initial `itemsLayout` state (TabBar.tsx lines 89–96): empty when
`scrollEnabled`; otherwise each tab gets
`tabWidth = showDefaultTabs ? width / nTabs : nTabs != 2 ? 80% : 43%` of the
container width, with `x = nTabs != 2 ? tabWidth : i * tabWidth`. -/
def initialItemsLayout (scrollEnabled showDefaultTabs : Bool) (w : ℚ)
    (tabNames : List String) : List ItemLayout :=
  if scrollEnabled then []
  else
    let nTabs := tabNames.length
    (List.range nTabs).map fun i : ℕ =>
      let tabWidth : ℚ :=
        if showDefaultTabs then w / nTabs
        else if nTabs ≠ 2 then (80 * w) / 100 else (43 * w) / 100
      { width := tabWidth
        x := if nTabs ≠ 2 then tabWidth else (i : ℚ) * tabWidth }

/-- The resize-effect recomputation of `itemsLayout` (TabBar.tsx lines 98–110),
run on any non-first render with `scrollEnabled = false`:
`tabWidth = width / nTabs`, `x = i * tabWidth`. -/
def resizeItemsLayout (w : ℚ) (tabNames : List String) : List ItemLayout :=
  (List.range tabNames.length).map fun i : ℕ =>
    { width := w / tabNames.length, x := (i : ℚ) * (w / tabNames.length) }

/-- The `{width, x}` measurement carried by a layout event's
`nativeEvent.layout` (absent data is modelled as `none` at the use sites). -/
structure NativeLayout where
  width : ℚ
  x : ℚ
deriving DecidableEq, Repr

/-- The state touched by `onTabItemLayout`: the `itemLayoutGathering` ref (a
JS `Map`, modelled as an insertion-ordered association list) and the
published `itemsLayout` react state. -/
structure LayoutState where
  gathering : List (String × ItemLayout)
  itemsLayout : List ItemLayout
deriving DecidableEq, Repr

/-- The state at first render in measured mode: nothing gathered, and
`itemsLayout` initialised to `[]` (TabBar.tsx lines 77, 89–91). -/
def initialLayoutState : LayoutState := ⟨[], []⟩

/-- JS `Map.set`: overwrite the value at an existing key (keeping insertion
order), otherwise append a new binding. -/
def mapSet (m : List (String × ItemLayout)) (k : String) (v : ItemLayout) :
    List (String × ItemLayout) :=
  if m.any fun p => p.1 == k then
    m.map fun p => if p.1 == k then (k, v) else p
  else m ++ [(k, v)]

/-- The comparator `(a, b) => a.x - b.x` passed to `.sort`, as an order. -/
def xLE (a b : ItemLayout) : Prop := a.x ≤ b.x

instance : DecidableRel xLE := fun a b =>
  inferInstanceAs (Decidable (a.x ≤ b.x))

instance : IsTotal ItemLayout xLE := ⟨fun a b => le_total a.x b.x⟩

instance : IsTrans ItemLayout xLE := ⟨fun _ _ _ h h' => le_trans h h'⟩

/-- The call `.sort((a, b) => a.x - b.x)`: stable sort of the gathered layouts by
ascending `x`. -/
def sortByX (l : List ItemLayout) : List ItemLayout := l.insertionSort xLE

/-- The handler `onTabItemLayout` (TabBar.tsx lines 112–135) as a state transition: no-op
unless `scrollEnabled` and the event carries a measurement; otherwise record
the measurement under `name`, filter the accumulator to currently-known tab
names, sort by `x`, and publish only when the gathered count equals the tab
count. -/
def onTabItemLayout (scrollEnabled : Bool) (tabNames : List String)
    (event : Option NativeLayout) (name : String) (s : LayoutState) :
    LayoutState :=
  if scrollEnabled then
    match event with
    | none => s
    | some l =>
      let gathering := mapSet s.gathering name ⟨l.width, l.x⟩
      let layout :=
        sortByX ((gathering.filter fun p => tabNames.contains p.1).map Prod.snd)
      if layout.length = tabNames.length then ⟨gathering, layout⟩
      else ⟨gathering, s.itemsLayout⟩
  else s

/-- A sequence of per-tab layout-callback events, folded through
`onTabItemLayout`. -/
def processLayoutEvents (scrollEnabled : Bool) (tabNames : List String)
    (evs : List (String × Option NativeLayout)) (s : LayoutState) : LayoutState :=
  evs.foldl (fun st ev => onTabItemLayout scrollEnabled tabNames ev.2 ev.1 st) s

theorem sortByX_sorted (l : List ItemLayout) : List.Sorted xLE (sortByX l) :=
  List.sorted_insertionSort xLE l

theorem sortByX_length (l : List ItemLayout) : (sortByX l).length = l.length :=
  (List.perm_insertionSort xLE l).length_eq

theorem mapSet_map_fst (m : List (String × ItemLayout)) (k : String)
    (v : ItemLayout) :
    (mapSet m k v).map Prod.fst =
      if m.any fun p => p.1 == k then m.map Prod.fst
      else m.map Prod.fst ++ [k] := by
  unfold mapSet
  split
  · rw [List.map_map]
    refine List.map_congr_left fun p _ => ?_
    by_cases hp : p.1 == k
    · simp only [Function.comp_apply, if_pos hp]
      exact (eq_of_beq hp).symm
    · simp only [Function.comp_apply, if_neg hp]
  · simp

theorem mapSet_keys_nodup {m : List (String × ItemLayout)} {k : String}
    {v : ItemLayout} (h : (m.map Prod.fst).Nodup) :
    ((mapSet m k v).map Prod.fst).Nodup := by
  rw [mapSet_map_fst]
  split
  · exact h
  · rename_i hany
    have hk : k ∉ m.map Prod.fst := by
      intro hmem
      obtain ⟨p, hp, hfst⟩ := List.mem_map.mp hmem
      exact hany (List.any_eq_true.mpr ⟨p, hp, beq_iff_eq.mpr hfst⟩)
    simp [List.nodup_append, h, hk]

theorem mapSet_mem_keys_mono {m : List (String × ItemLayout)} {k n : String}
    {v : ItemLayout} (h : n ∈ m.map Prod.fst) :
    n ∈ (mapSet m k v).map Prod.fst := by
  rw [mapSet_map_fst]
  split
  · exact h
  · exact List.mem_append_left _ h

/-- If the filtered accumulator has as many entries as there are tab names,
then (keys being distinct) every tab name has a gathered measurement. -/
theorem complete_of_filter_length (m : List (String × ItemLayout))
    (tabNames : List String) (hnd : (m.map Prod.fst).Nodup)
    (hlen : ((m.filter fun p => tabNames.contains p.1).map Prod.snd).length =
      tabNames.length) :
    ∀ n ∈ tabNames, n ∈ m.map Prod.fst := by
  intro n0 hn0
  by_contra hmem
  have hFsub : ((m.filter fun p => tabNames.contains p.1).map Prod.fst).Sublist
      (m.map Prod.fst) := (List.filter_sublist m).map Prod.fst
  have hFnd : ((m.filter fun p => tabNames.contains p.1).map Prod.fst).Nodup :=
    hnd.sublist hFsub
  have hsubset : ((m.filter fun p => tabNames.contains p.1).map
      Prod.fst).toFinset ⊆ tabNames.toFinset.erase n0 := by
    intro x hx
    rw [List.mem_toFinset] at hx
    obtain ⟨p, hp, hfst⟩ := List.mem_map.mp hx
    have hpmem := List.mem_filter.mp hp
    have hxtab : x ∈ tabNames := by
      rw [← hfst]
      exact List.elem_iff.mp hpmem.2
    have hxne : x ≠ n0 := by
      rintro rfl
      exact hmem (List.mem_map.mpr ⟨p, hpmem.1, hfst⟩)
    exact Finset.mem_erase.mpr ⟨hxne, List.mem_toFinset.mpr hxtab⟩
  have h1 : ((m.filter fun p => tabNames.contains p.1).map Prod.fst).length =
      ((m.filter fun p => tabNames.contains p.1).map Prod.fst).toFinset.card :=
    (List.toFinset_card_of_nodup hFnd).symm
  have h2 := Finset.card_le_card hsubset
  have h3 : (tabNames.toFinset.erase n0).card = tabNames.toFinset.card - 1 :=
    Finset.card_erase_of_mem (List.mem_toFinset.mpr hn0)
  have h4 : tabNames.toFinset.card ≤ tabNames.length := tabNames.toFinset_card_le
  have h5 : 1 ≤ tabNames.toFinset.card :=
    Finset.card_pos.mpr ⟨n0, List.mem_toFinset.mpr hn0⟩
  have h6 : ((m.filter fun p => tabNames.contains p.1).map Prod.fst).length =
      tabNames.length := by
    rw [List.length_map] at hlen ⊢
    exact hlen
  omega

/-- The invariant maintained by `onTabItemLayout` in measured mode. -/
def LayoutInv (tabNames : List String) (s : LayoutState) : Prop :=
  (s.gathering.map Prod.fst).Nodup ∧
  (s.itemsLayout = [] ∨
    (s.itemsLayout.length = tabNames.length ∧
     List.Sorted xLE s.itemsLayout ∧
     ∀ n ∈ tabNames, n ∈ s.gathering.map Prod.fst))

theorem layoutInv_step (tabNames : List String) (ev : Option NativeLayout)
    (name : String) (s : LayoutState) (h : LayoutInv tabNames s) :
    LayoutInv tabNames (onTabItemLayout true tabNames ev name s) := by
  obtain ⟨hnd, hpub⟩ := h
  match ev with
  | none => exact ⟨hnd, hpub⟩
  | some l =>
    have hnd' : ((mapSet s.gathering name ⟨l.width, l.x⟩).map Prod.fst).Nodup :=
      mapSet_keys_nodup hnd
    have heq : onTabItemLayout true tabNames (some l) name s =
        if (sortByX (((mapSet s.gathering name ⟨l.width, l.x⟩).filter
            fun p => tabNames.contains p.1).map Prod.snd)).length = tabNames.length
        then ⟨mapSet s.gathering name ⟨l.width, l.x⟩,
          sortByX (((mapSet s.gathering name ⟨l.width, l.x⟩).filter
            fun p => tabNames.contains p.1).map Prod.snd)⟩
        else ⟨mapSet s.gathering name ⟨l.width, l.x⟩, s.itemsLayout⟩ := rfl
    rw [heq]
    by_cases hc : (sortByX (((mapSet s.gathering name ⟨l.width, l.x⟩).filter
        fun p => tabNames.contains p.1).map Prod.snd)).length = tabNames.length
    · rw [if_pos hc]
      refine ⟨hnd', Or.inr ⟨hc, sortByX_sorted _, ?_⟩⟩
      refine complete_of_filter_length _ tabNames hnd' ?_
      rw [← sortByX_length]
      exact hc
    · rw [if_neg hc]
      refine ⟨hnd', ?_⟩
      rcases hpub with he | ⟨h1, h2, h3⟩
      · exact Or.inl he
      · exact Or.inr ⟨h1, h2, fun n hn => mapSet_mem_keys_mono (h3 n hn)⟩

theorem layoutInv_process (tabNames : List String)
    (evs : List (String × Option NativeLayout)) :
    ∀ s, LayoutInv tabNames s →
      LayoutInv tabNames (processLayoutEvents true tabNames evs s) := by
  induction evs with
  | nil => exact fun s h => h
  | cons e t ih =>
    intro s h
    simp only [processLayoutEvents, List.foldl_cons]
    exact ih _ (layoutInv_step tabNames e.2 e.1 s h)

end TabBar

/-- C2: in measured mode, whenever the published layout sequence is nonempty
after any sequence of layout-callback events, it has length equal to the tab
count and is sorted ascending by `x`, and every tab name has at least one
gathered measurement; in particular it stays empty until every tab name has
reported. -/
theorem c2_measured_publication (tabNames : List String)
    (evs : List (String × Option TabBar.NativeLayout))
    (h : (TabBar.processLayoutEvents true tabNames evs
      TabBar.initialLayoutState).itemsLayout ≠ []) :
    (TabBar.processLayoutEvents true tabNames evs
        TabBar.initialLayoutState).itemsLayout.length = tabNames.length ∧
    List.Sorted TabBar.xLE
      (TabBar.processLayoutEvents true tabNames evs
        TabBar.initialLayoutState).itemsLayout ∧
    ∀ n ∈ tabNames,
      n ∈ (TabBar.processLayoutEvents true tabNames evs
        TabBar.initialLayoutState).gathering.map Prod.fst := by
  have hinv := TabBar.layoutInv_process tabNames evs TabBar.initialLayoutState
    ⟨by simp [TabBar.initialLayoutState], Or.inl rfl⟩
  rcases hinv.2 with he | hc
  · exact absurd he h
  · exact hc

/-- Witness for `c2_measured_publication`: two tabs whose measurements arrive
in reverse order; the sequence publishes only after the second event, sorted
by `x`. -/
theorem c2_measured_publication_witness :
    (TabBar.processLayoutEvents true ["a", "b"]
      [("b", some ⟨5, 10⟩), ("a", some ⟨10, 0⟩)]
      TabBar.initialLayoutState).itemsLayout ≠ [] ∧
    ((TabBar.processLayoutEvents true ["a", "b"]
        [("b", some ⟨5, 10⟩), ("a", some ⟨10, 0⟩)]
        TabBar.initialLayoutState).itemsLayout.length = ["a", "b"].length ∧
    List.Sorted TabBar.xLE
      (TabBar.processLayoutEvents true ["a", "b"]
        [("b", some ⟨5, 10⟩), ("a", some ⟨10, 0⟩)]
        TabBar.initialLayoutState).itemsLayout ∧
    ∀ n ∈ ["a", "b"],
      n ∈ (TabBar.processLayoutEvents true ["a", "b"]
        [("b", some ⟨5, 10⟩), ("a", some ⟨10, 0⟩)]
        TabBar.initialLayoutState).gathering.map Prod.fst) := by
  have h : (TabBar.processLayoutEvents true ["a", "b"]
      [("b", some ⟨5, 10⟩), ("a", some ⟨10, 0⟩)]
      TabBar.initialLayoutState).itemsLayout ≠ [] := by decide
  exact ⟨h, c2_measured_publication ["a", "b"] _ h⟩

/-- C9: a layout callback whose event carries no measurement leaves the
gathering accumulator and the published layout sequence unchanged, and so
does any callback arriving while `scrollEnabled` is false. -/
theorem c9_layout_event_noop (tabNames : List String) (name : String)
    (ev : Option TabBar.NativeLayout) (s : TabBar.LayoutState) :
    TabBar.onTabItemLayout false tabNames ev name s = s ∧
    TabBar.onTabItemLayout true tabNames none name s = s :=
  ⟨rfl, rfl⟩

namespace TabBar

/-- The `indexData` react state driving the carousel-mode "next" affordance
(TabBar.tsx lines 84–87): initialised to `{ selected: 0, listIndex: 0 }`. -/
structure IndexData where
  selected : ℕ
  listIndex : ℕ
deriving DecidableEq, Repr

/-- The initial `indexData` state. -/
def initialIndexData : IndexData := ⟨0, 0⟩

/-- The `onPress` handler of the carousel-mode "next" `Pressable`
(TabBar.tsx lines 280–306), for `nTabs = n` tabs: returns the tab position
passed to `onTabPress` together with the updated `indexData`. -/
def nextPress (n : ℕ) (d : IndexData) : ℕ × IndexData :=
  if d.selected = 0 then
    (n - 1, ⟨n - 1, n - 2⟩)
  else if d.listIndex < d.selected then
    (d.listIndex, ⟨d.listIndex, d.listIndex + 1⟩)
  else
    (d.selected - 1, ⟨d.selected - 1, d.selected⟩)

/-- The tab name handed to `onTabPress` by the "next" affordance. -/
def nextPressName (tabNames : List String) (d : IndexData) : Option String :=
  tabNames[(nextPress tabNames.length d).1]?

/-- The `indexData` states reachable from `initialIndexData` under
`nextPress` with `n` tabs. -/
def IndexDataInv (n : ℕ) (d : IndexData) : Prop :=
  (d.selected = 0 ∧ d.listIndex = 0) ∨
  (d.selected + 1 ≤ n - 1 ∧ d.listIndex = d.selected + 1) ∨
  (d.selected = n - 1 ∧ d.listIndex = n - 2)

end TabBar

/-- C3: the claim asserts the "next" affordance advances the selection
forward to position `(i + 1) % nTabs`; with 3 tabs in the initial state
(`selected = 0`) the handler instead invokes the tab-selection callback with
the tab at position 2 (the last tab), not position 1. -/
theorem c3_counterexample :
    (TabBar.nextPress 3 TabBar.initialIndexData).1 = 2 ∧
    TabBar.nextPressName ["t0", "t1", "t2"] TabBar.initialIndexData =
      some "t2" ∧
    (TabBar.nextPress 3 TabBar.initialIndexData).1 ≠ (0 + 1) % 3 := by
  refine ⟨rfl, rfl, ?_⟩
  decide

/-- C3 (amended): in carousel mode (`n > 2` tabs), each press of the "next"
affordance moves the selection backward by one tab, wrapping to the last tab
from the first: from every reachable `indexData` state with selection `i`,
the tab-selection callback is invoked with the tab at position
`(i + n - 1) % n`, which also becomes the new selection. -/
theorem c3_next_press_backward (n : ℕ) (d : TabBar.IndexData) (hn : 2 < n)
    (hd : TabBar.IndexDataInv n d) :
    (TabBar.nextPress n d).1 = (d.selected + n - 1) % n ∧
    (TabBar.nextPress n d).2.selected = (d.selected + n - 1) % n ∧
    TabBar.IndexDataInv n (TabBar.nextPress n d).2 := by
  have h1 : (0 + n - 1) % n = n - 1 := by
    rw [Nat.zero_add]
    exact Nat.mod_eq_of_lt (by omega)
  rcases hd with ⟨hs, hl⟩ | ⟨hs, hl⟩ | ⟨hs, hl⟩
  · have he : TabBar.nextPress n d = (n - 1, ⟨n - 1, n - 2⟩) := by
      simp [TabBar.nextPress, hs]
    rw [hs, he]
    exact ⟨h1.symm, h1.symm, Or.inr (Or.inr ⟨rfl, rfl⟩)⟩
  · rcases Nat.eq_zero_or_pos d.selected with h0 | hpos
    · have he : TabBar.nextPress n d = (n - 1, ⟨n - 1, n - 2⟩) := by
        simp [TabBar.nextPress, h0]
      rw [h0, he]
      exact ⟨h1.symm, h1.symm, Or.inr (Or.inr ⟨rfl, rfl⟩)⟩
    · have hbr : ¬ d.selected = 0 := by omega
      have hbr2 : ¬ d.listIndex < d.selected := by omega
      have he : TabBar.nextPress n d =
          (d.selected - 1, ⟨d.selected - 1, d.selected⟩) := by
        simp [TabBar.nextPress, hbr, hbr2]
      have hmod : (d.selected + n - 1) % n = d.selected - 1 := by
        have h2 : d.selected + n - 1 = (d.selected - 1) + n := by omega
        rw [h2, Nat.add_mod_right]
        exact Nat.mod_eq_of_lt (by omega)
      rw [he]
      exact ⟨hmod.symm, hmod.symm,
        Or.inr (Or.inl ⟨show d.selected - 1 + 1 ≤ n - 1 by omega,
          show d.selected = d.selected - 1 + 1 by omega⟩)⟩
  · have hbr : ¬ d.selected = 0 := by omega
    have hbr2 : d.listIndex < d.selected := by omega
    have he : TabBar.nextPress n d =
        (d.listIndex, ⟨d.listIndex, d.listIndex + 1⟩) := by
      simp [TabBar.nextPress, hbr, hbr2]
    have hmod : (d.selected + n - 1) % n = n - 2 := by
      have h2 : d.selected + n - 1 = (n - 2) + n := by omega
      rw [h2, Nat.add_mod_right]
      exact Nat.mod_eq_of_lt (by omega)
    rw [he, hl]
    exact ⟨hmod.symm, hmod.symm,
      Or.inr (Or.inl ⟨show n - 2 + 1 ≤ n - 1 by omega, rfl⟩)⟩

/-- Witness for `c3_next_press_backward`: 3 tabs, initial state. -/
theorem c3_next_press_backward_witness :
    (TabBar.nextPress 3 ⟨0, 0⟩).1 = (0 + 3 - 1) % 3 ∧
    (TabBar.nextPress 3 ⟨0, 0⟩).2.selected = (0 + 3 - 1) % 3 ∧
    TabBar.IndexDataInv 3 (TabBar.nextPress 3 ⟨0, 0⟩).2 :=
  c3_next_press_backward 3 ⟨0, 0⟩ (by decide) (Or.inl ⟨rfl, rfl⟩)

namespace TabBar

/-- The auto-centering reaction (TabBar.tsx lines 172–195) as a function from
its inputs to the `scrollTo` x-target: `some target` exactly when `scrollTo`
is invoked. `canSync` is the sync-completion flag
(`currentIndexToSync.value === targetIndexToSync.value`), `tabsOffset` the
current scroll offset and `width` the container width. -/
def autoScrollTarget (canSync scrollEnabled : Bool)
    (itemsLayout : List ItemLayout) (nTabs indexVal : ℕ)
    (keepActiveTabCentered : Bool) (tabsOffset width : ℚ) : Option ℚ :=
  if canSync ∧ scrollEnabled ∧ itemsLayout.length = nTabs then
    match itemsLayout[indexVal]? with
    | none => none
    | some rect =>
      if keepActiveTabCentered ∨ rect.x < tabsOffset ∨
          rect.x > tabsOffset + width - 2 * (rect.width / 2) then
        some (rect.x - width / 2 + rect.width / 2)
      else none
  else none

end TabBar

/-- C5: when sync is complete, scrolling is enabled and the layout sequence
is complete, an auto-scroll is triggered iff `keepActiveTabCentered` is true,
or the active rectangle's `x` is left of the scroll offset `o`, or `x`
exceeds `o + width - rect.width`; when triggered, the target offset is
`x - width/2 + rect.width/2`. -/
theorem c5_auto_scroll (itemsLayout : List TabBar.ItemLayout)
    (nTabs indexVal : ℕ) (keep : Bool) (o w : ℚ) (rect : TabBar.ItemLayout)
    (hlen : itemsLayout.length = nTabs)
    (hrect : itemsLayout[indexVal]? = some rect) :
    ((TabBar.autoScrollTarget true true itemsLayout nTabs indexVal keep o
        w).isSome ↔ (keep = true ∨ rect.x < o ∨ rect.x > o + w - rect.width)) ∧
    (∀ t, TabBar.autoScrollTarget true true itemsLayout nTabs indexVal keep o
        w = some t → t = rect.x - w / 2 + rect.width / 2) := by
  have hred : TabBar.autoScrollTarget true true itemsLayout nTabs indexVal
      keep o w =
      if keep = true ∨ rect.x < o ∨ rect.x > o + w - 2 * (rect.width / 2) then
        some (rect.x - w / 2 + rect.width / 2)
      else none := by
    unfold TabBar.autoScrollTarget
    rw [if_pos ⟨rfl, rfl, hlen⟩, hrect]
  rw [hred]
  have hcond : (keep = true ∨ rect.x < o ∨
      rect.x > o + w - 2 * (rect.width / 2)) ↔
      (keep = true ∨ rect.x < o ∨ rect.x > o + w - rect.width) := by
    rw [show o + w - 2 * (rect.width / 2) = o + w - rect.width by ring]
  by_cases hc : keep = true ∨ rect.x < o ∨
      rect.x > o + w - 2 * (rect.width / 2)
  · rw [if_pos hc]
    refine ⟨iff_of_true (by simp) (hcond.mp hc), fun t ht => ?_⟩
    exact (Option.some.inj ht).symm
  · rw [if_neg hc]
    refine ⟨iff_of_false (by simp) fun h => hc (hcond.mpr h), fun t ht => ?_⟩
    exact absurd ht (by simp)

/-- Witness for `c5_auto_scroll`: tab 1 of two lies right of the visible
window, so a centering scroll is triggered. -/
theorem c5_auto_scroll_witness :
    ((TabBar.autoScrollTarget true true [⟨10, 0⟩, ⟨20, 30⟩] 2 1 false 0
        25).isSome ↔
      (false = true ∨ (30 : ℚ) < 0 ∨ (30 : ℚ) > 0 + 25 - 20)) ∧
    (∀ t, TabBar.autoScrollTarget true true [⟨10, 0⟩, ⟨20, 30⟩] 2 1 false 0
        25 = some t → t = 30 - 25 / 2 + 20 / 2) := by
  have h := c5_auto_scroll [⟨10, 0⟩, ⟨20, 30⟩] 2 1 false 0 25 ⟨20, 30⟩ rfl rfl
  exact h

namespace TabBar

/-- The shared-value state manipulated by the index-sync reaction
(TabBar.tsx lines 155–170): the target of the in-flight `withTiming`
animation on `currentIndexToSync` (`none` when no animation is running), the
`targetIndexToSync` value, and the current `currentIndexToSync` value. -/
structure SyncState where
  animTarget : Option ℚ
  targetIndexToSync : ℚ
  currentIndexToSync : ℚ
deriving DecidableEq, Repr

/-- The statement `cancelAnimation(currentIndexToSync)`: aborts any in-flight animation. -/
def cancelAnim (s : SyncState) : SyncState := { s with animTarget := none }

/-- The statement `targetIndexToSync.value = nextIndex`. -/
def setTarget (v : ℚ) (s : SyncState) : SyncState :=
  { s with targetIndexToSync := v }

/-- The statement `currentIndexToSync.value = withTiming(nextIndex)`: starts a new timing
animation toward `nextIndex`. -/
def startTiming (v : ℚ) (s : SyncState) : SyncState :=
  { s with animTarget := some v }

/-- The index-change reaction (TabBar.tsx lines 158–170): on a new external
index, if scrolling is enabled, cancel the in-flight sync animation, then set
the sync target, then start a timing animation toward the new index. -/
def onIndexChange (scrollEnabled : Bool) (nextIndex : ℚ) (s : SyncState) :
    SyncState :=
  if scrollEnabled then startTiming nextIndex (setTarget nextIndex (cancelAnim s))
  else s

end TabBar

/-- C8: on every external index change with scrolling enabled, the in-flight
sync animation is canceled before the new target is set and a new timing
animation toward it is started; after any burst of index changes ending in
`u`, the only surviving animation targets `u` — no animation toward a stale
target survives a newer index change. -/
theorem c8_index_change_supersedes (s : TabBar.SyncState) (v u : ℚ)
    (vs : List ℚ) :
    (TabBar.cancelAnim s).animTarget = none ∧
    TabBar.onIndexChange true v s =
      TabBar.startTiming v (TabBar.setTarget v (TabBar.cancelAnim s)) ∧
    (TabBar.onIndexChange true v s).animTarget = some v ∧
    (TabBar.onIndexChange true v s).targetIndexToSync = v ∧
    ((vs ++ [u]).foldl (fun st w => TabBar.onIndexChange true w st)
        s).animTarget = some u ∧
    ((vs ++ [u]).foldl (fun st w => TabBar.onIndexChange true w st)
        s).targetIndexToSync = u := by
  refine ⟨rfl, rfl, rfl, rfl, ?_, ?_⟩ <;>
    rw [List.foldl_append, List.foldl_cons, List.foldl_nil] <;> rfl

namespace TabBar

/-- One linear segment of reanimated's `interpolate`:
`y0 + (v - x0) * (y1 - y0) / (x1 - x0)`. -/
def interpSeg (v x0 y0 x1 y1 : ℚ) : ℚ := y0 + (v - x0) * (y1 - y0) / (x1 - x0)

/-- Reanimated's `interpolate` with the default extrapolation: piecewise
linear over the breakpoints of the input range, using for `v` the segment
whose right breakpoint is the first one past `v` (clamped to the last
segment, so values beyond the range are linearly extrapolated). -/
def interpolate (v : ℚ) : List ℚ → List ℚ → ℚ
  | x0 :: x1 :: x2 :: xs, y0 :: y1 :: y2 :: ys =>
    if v < x1 then interpSeg v x0 y0 x1 y1
    else interpolate v (x1 :: x2 :: xs) (y1 :: y2 :: ys)
  | [x0, x1], [y0, y1] => interpSeg v x0 y0 x1 y1
  | _, _ => 0

/-- The input range `itemsLayout.map((_, i) => i)` generalised to start at
`a`: the rational casts of `a, a+1, …, a+k-1`. -/
def breakpoints : ℕ → ℕ → List ℚ
  | _, 0 => []
  | a, k + 1 => (a : ℚ) :: breakpoints (a + 1) k

theorem breakpoints_eq_range_map (a k : ℕ) :
    breakpoints a k = (List.range' a k).map fun m : ℕ => (m : ℚ) := by
  induction k generalizing a with
  | zero => rfl
  | succ k ih => rw [List.range'_succ, List.map_cons, breakpoints, ih]

theorem breakpoints_zero (n : ℕ) :
    (List.range n).map (fun m : ℕ => (m : ℚ)) = breakpoints 0 n := by
  rw [List.range_eq_range', breakpoints_eq_range_map]

/-- Evaluating `interpolate` over the two-point range `[0, 1]`. -/
theorem interpolate_pair (v a b : ℚ) :
    interpolate v [0, 1] [a, b] = a + v * (b - a) := by
  show interpSeg v 0 a 1 b = a + v * (b - a)
  unfold interpSeg
  ring

/-- At an integer breakpoint, `interpolate` over unit-spaced breakpoints
returns the corresponding output exactly. -/
theorem interpolate_at_int (j : ℕ) :
    ∀ (a : ℕ) (ys : List ℚ), 2 ≤ ys.length → j < ys.length →
      interpolate ((a + j : ℕ) : ℚ) (breakpoints a ys.length) ys =
        ys.getD j 0 := by
  induction j with
  | zero =>
    intro a ys h2 hj
    match ys with
    | y0 :: y1 :: ys' =>
      match ys' with
      | [] =>
        show interpSeg ((a + 0 : ℕ) : ℚ) (a : ℚ) y0 ((a + 1 : ℕ) : ℚ) y1 = y0
        unfold interpSeg
        push_cast
        ring
      | y2 :: ys'' =>
        have hv : ((a + 0 : ℕ) : ℚ) < ((a + 1 : ℕ) : ℚ) :=
          Nat.cast_lt.mpr (by omega)
        show (if ((a + 0 : ℕ) : ℚ) < ((a + 1 : ℕ) : ℚ) then
            interpSeg ((a + 0 : ℕ) : ℚ) (a : ℚ) y0 ((a + 1 : ℕ) : ℚ) y1
          else interpolate ((a + 0 : ℕ) : ℚ)
            (((a + 1 : ℕ) : ℚ) :: breakpoints (a + 1 + 1) (ys''.length + 1))
            (y1 :: y2 :: ys'')) = y0
        rw [if_pos hv]
        unfold interpSeg
        push_cast
        ring
  | succ j ih =>
    intro a ys h2 hj
    match ys with
    | y0 :: y1 :: ys' =>
      match ys' with
      | [] =>
        have hj0 : j = 0 := by
          simp only [List.length_cons, List.length_nil] at hj
          omega
        subst hj0
        show interpSeg ((a + 1 : ℕ) : ℚ) (a : ℚ) y0 ((a + 1 : ℕ) : ℚ) y1 = y1
        unfold interpSeg
        push_cast
        have hden : ((a : ℚ) + 1) - (a : ℚ) = 1 := by ring
        rw [hden]
        ring
      | y2 :: ys'' =>
        have hv : ¬ ((a + (j + 1) : ℕ) : ℚ) < ((a + 1 : ℕ) : ℚ) := by
          rw [not_lt]
          exact Nat.cast_le.mpr (by omega)
        show (if ((a + (j + 1) : ℕ) : ℚ) < ((a + 1 : ℕ) : ℚ) then
            interpSeg ((a + (j + 1) : ℕ) : ℚ) (a : ℚ) y0 ((a + 1 : ℕ) : ℚ) y1
          else interpolate ((a + (j + 1) : ℕ) : ℚ)
            (((a + 1 : ℕ) : ℚ) :: breakpoints (a + 1 + 1) (ys''.length + 1))
            (y1 :: y2 :: ys'')) = (y1 :: y2 :: ys'').getD j 0
        rw [if_neg hv]
        have harg : ((a + (j + 1) : ℕ) : ℚ) = (((a + 1) + j : ℕ) : ℚ) := by
          push_cast
          ring
        rw [harg]
        have hbp : (((a + 1 : ℕ)) : ℚ) :: breakpoints (a + 1 + 1) (ys''.length + 1) =
            breakpoints (a + 1) (y1 :: y2 :: ys'').length := by
          show _ = breakpoints (a + 1) (ys''.length + 2)
          rw [breakpoints]
          rfl
        rw [hbp]
        exact ih (a + 1) (y1 :: y2 :: ys'')
          (by simp only [List.length_cons]; omega)
          (by simp only [List.length_cons] at hj ⊢; omega)

/-- Strictly between breakpoints `a + j` and `a + j + 1`, `interpolate` over
unit-spaced breakpoints is the linear blend of the two adjacent outputs. -/
theorem interpolate_between (j : ℕ) :
    ∀ (a : ℕ) (t : ℚ) (ys : List ℚ), 0 < t → t < 1 → j + 1 < ys.length →
      interpolate (((a + j : ℕ) : ℚ) + t) (breakpoints a ys.length) ys =
        ys.getD j 0 + t * (ys.getD (j + 1) 0 - ys.getD j 0) := by
  induction j with
  | zero =>
    intro a t ys ht0 ht1 hj
    match ys with
    | y0 :: y1 :: ys' =>
      match ys' with
      | [] =>
        show interpSeg (((a + 0 : ℕ) : ℚ) + t) (a : ℚ) y0 ((a + 1 : ℕ) : ℚ) y1 =
          y0 + t * (y1 - y0)
        unfold interpSeg
        push_cast
        have hden : ((a : ℚ) + 1) - (a : ℚ) = 1 := by ring
        rw [show ((a : ℚ) + 0 + t) - (a : ℚ) = t by ring, hden]
        ring
      | y2 :: ys'' =>
        have hv : (((a + 0 : ℕ) : ℚ) + t) < ((a + 1 : ℕ) : ℚ) := by
          push_cast
          linarith
        show (if (((a + 0 : ℕ) : ℚ) + t) < ((a + 1 : ℕ) : ℚ) then
            interpSeg (((a + 0 : ℕ) : ℚ) + t) (a : ℚ) y0 ((a + 1 : ℕ) : ℚ) y1
          else interpolate (((a + 0 : ℕ) : ℚ) + t)
            (((a + 1 : ℕ) : ℚ) :: breakpoints (a + 1 + 1) (ys''.length + 1))
            (y1 :: y2 :: ys'')) = y0 + t * (y1 - y0)
        rw [if_pos hv]
        unfold interpSeg
        push_cast
        have hden : ((a : ℚ) + 1) - (a : ℚ) = 1 := by ring
        rw [show ((a : ℚ) + 0 + t) - (a : ℚ) = t by ring, hden]
        ring
  | succ j ih =>
    intro a t ys ht0 ht1 hj
    match ys with
    | y0 :: y1 :: ys' =>
      match ys' with
      | [] =>
        simp only [List.length_cons, List.length_nil] at hj
        omega
      | y2 :: ys'' =>
        have hv : ¬ (((a + (j + 1) : ℕ) : ℚ) + t) < ((a + 1 : ℕ) : ℚ) := by
          rw [not_lt]
          push_cast
          linarith [Nat.cast_nonneg (α := ℚ) j]
        show (if (((a + (j + 1) : ℕ) : ℚ) + t) < ((a + 1 : ℕ) : ℚ) then
            interpSeg (((a + (j + 1) : ℕ) : ℚ) + t) (a : ℚ) y0
              ((a + 1 : ℕ) : ℚ) y1
          else interpolate (((a + (j + 1) : ℕ) : ℚ) + t)
            (((a + 1 : ℕ) : ℚ) :: breakpoints (a + 1 + 1) (ys''.length + 1))
            (y1 :: y2 :: ys'')) =
          (y1 :: y2 :: ys'').getD j 0 +
            t * ((y1 :: y2 :: ys'').getD (j + 1) 0 - (y1 :: y2 :: ys'').getD j 0)
        rw [if_neg hv]
        have harg : (((a + (j + 1) : ℕ) : ℚ) + t) = ((((a + 1) + j : ℕ) : ℚ) + t) := by
          push_cast
          ring
        rw [harg]
        have hbp : (((a + 1 : ℕ)) : ℚ) :: breakpoints (a + 1 + 1) (ys''.length + 1) =
            breakpoints (a + 1) (y1 :: y2 :: ys'').length := by
          show _ = breakpoints (a + 1) (ys''.length + 2)
          rw [breakpoints]
          rfl
        rw [hbp]
        exact ih (a + 1) t (y1 :: y2 :: ys'') ht0 ht1
          (by simp only [List.length_cons] at hj ⊢; omega)

end TabBar

namespace TabBar

/-- The output range of the carousel card's translateX interpolation
(TabBar.tsx line 480):
`[index == 0 ? 0 : (-250 * index) - (35 * index),
  index == 0 ? 250 + 35 : (-250 * index - (35 * index)) + 250 + 35]`. -/
def carouselOutputRange (index : ℕ) : ℚ × ℚ :=
  (if index = 0 then 0 else (-250 * (index : ℚ)) - 35 * (index : ℚ),
   if index = 0 then 250 + 35
   else ((-250) * (index : ℚ) - 35 * (index : ℚ)) + 250 + 35)

/-- The carousel card's translateX (MyComponent `style2z`, TabBar.tsx lines
471–485): `interpolate(indexDecimal.value, [0, 1], outputRange)`. -/
def carouselTranslateX (index : ℕ) (f : ℚ) : ℚ :=
  interpolate f [0, 1]
    [(carouselOutputRange index).1, (carouselOutputRange index).2]

/-- The indicator/active-card width (TabBar.tsx `stylez` lines 212–219 and
MyComponent `style2z` lines 487–494): with more than one published rectangle,
`interpolate(indexDecimal.value, itemsLayout.map((_, i) => i),
itemsLayout.map(v => v.width))`; otherwise `itemsLayout[0]?.width`. -/
def indicatorWidth (f : ℚ) (itemsLayout : List ItemLayout) : Option ℚ :=
  if 1 < itemsLayout.length then
    some (interpolate f
      ((List.range itemsLayout.length).map fun m : ℕ => (m : ℚ))
      (itemsLayout.map ItemLayout.width))
  else itemsLayout.head?.map ItemLayout.width

/-- The pill/card transform (TabBar.tsx `stylez` lines 198–210): an
interpolated translateX when more than one rectangle is published, and
`undefined` (no translation) otherwise. -/
def indicatorTransform (f : ℚ) (itemsLayout : List ItemLayout)
    (windowWidth : ℚ) : Option ℚ :=
  if 1 < itemsLayout.length then
    some (interpolate f
      ((List.range itemsLayout.length).map fun m : ℕ => (m : ℚ))
      [0, (46 * windowWidth) / 100 + 4])
  else none

end TabBar

/-- C6: the carousel card translateX endpoints: at `indexDecimal = 0` the
card at position `index` sits at `0` when `index = 0` and at `-(285·index)`
otherwise; at `indexDecimal = 1` it sits at `285` when `index = 0` and at
`-(285·index) + 285` otherwise; for `index = 2` the position at fractional
index `0` is `-570`; the per-step slide distance is the constant
`285 = 250 + 35`, independent of the tab count. -/
theorem c6_carousel_offsets (index : ℕ) :
    TabBar.carouselTranslateX index 0 =
      (if index = 0 then 0 else -(285 * (index : ℚ))) ∧
    TabBar.carouselTranslateX index 1 =
      (if index = 0 then (285 : ℚ) else -(285 * (index : ℚ)) + 285) ∧
    TabBar.carouselTranslateX 2 0 = -570 ∧
    TabBar.carouselTranslateX index 1 - TabBar.carouselTranslateX index 0 =
      285 ∧
    (285 : ℚ) = 250 + 35 := by
  have h0 : ∀ m : ℕ, TabBar.carouselTranslateX m 0 =
      (TabBar.carouselOutputRange m).1 := by
    intro m
    unfold TabBar.carouselTranslateX
    rw [TabBar.interpolate_pair]
    ring
  have h1 : ∀ m : ℕ, TabBar.carouselTranslateX m 1 =
      (TabBar.carouselOutputRange m).2 := by
    intro m
    unfold TabBar.carouselTranslateX
    rw [TabBar.interpolate_pair]
    ring
  refine ⟨?_, ?_, ?_, ?_, by norm_num⟩
  · rw [h0]
    by_cases h : index = 0 <;> simp [TabBar.carouselOutputRange, h] <;> ring
  · rw [h1]
    by_cases h : index = 0 <;> simp [TabBar.carouselOutputRange, h] <;> ring
  · rw [h0]
    norm_num [TabBar.carouselOutputRange]
  · rw [h0, h1]
    by_cases h : index = 0 <;> simp [TabBar.carouselOutputRange, h] <;> ring

/-- C7: with a published rectangle sequence of length `n > 1`, the
interpolated width at an integer fractional index `i` equals the `i`-th
rectangle's width exactly, and at `i + t` with `0 < t < 1` it equals the
linear interpolation of the `i`-th and `(i+1)`-th widths at fraction `t`;
with exactly one rectangle, the width is that rectangle's fixed width and
there is no translation. -/
theorem c7_indicator_interpolation (L : List TabBar.ItemLayout) (i : ℕ)
    (t f ww : ℚ) (ri rj r : TabBar.ItemLayout) :
    (1 < L.length → L[i]? = some ri →
      TabBar.indicatorWidth (i : ℚ) L = some ri.width) ∧
    (1 < L.length → 0 < t → t < 1 → L[i]? = some ri → L[i + 1]? = some rj →
      TabBar.indicatorWidth ((i : ℚ) + t) L =
        some (ri.width + t * (rj.width - ri.width))) ∧
    (TabBar.indicatorWidth f [r] = some r.width ∧
      TabBar.indicatorTransform f [r] ww = none) := by
  refine ⟨?_, ?_, rfl, rfl⟩
  · intro hlen hri
    have hi : i < L.length := by
      by_contra hge
      rw [List.getElem?_eq_none (by omega)] at hri
      exact Option.noConfusion hri
    unfold TabBar.indicatorWidth
    rw [if_pos hlen, TabBar.breakpoints_zero]
    rw [show L.length = (L.map TabBar.ItemLayout.width).length from
      (List.length_map _ _).symm]
    have harg : (i : ℚ) = ((0 + i : ℕ) : ℚ) := by push_cast; ring
    rw [harg, TabBar.interpolate_at_int i 0 (L.map TabBar.ItemLayout.width)
      (by rw [List.length_map]; omega) (by rw [List.length_map]; omega)]
    have : (L.map TabBar.ItemLayout.width).getD i 0 = ri.width := by
      rw [List.getD_eq_getElem?_getD, List.getElem?_map, hri]
      rfl
    rw [this]
  · intro hlen ht0 ht1 hri hrj
    have hij : i + 1 < L.length := by
      by_contra hge
      rw [List.getElem?_eq_none (by omega)] at hrj
      exact Option.noConfusion hrj
    unfold TabBar.indicatorWidth
    rw [if_pos hlen, TabBar.breakpoints_zero]
    rw [show L.length = (L.map TabBar.ItemLayout.width).length from
      (List.length_map _ _).symm]
    have harg : (i : ℚ) + t = ((0 + i : ℕ) : ℚ) + t := by push_cast; ring
    rw [harg, TabBar.interpolate_between i 0 t (L.map TabBar.ItemLayout.width)
      ht0 ht1 (by rw [List.length_map]; omega)]
    have hgi : (L.map TabBar.ItemLayout.width).getD i 0 = ri.width := by
      rw [List.getD_eq_getElem?_getD, List.getElem?_map, hri]
      rfl
    have hgj : (L.map TabBar.ItemLayout.width).getD (i + 1) 0 = rj.width := by
      rw [List.getD_eq_getElem?_getD, List.getElem?_map, hrj]
      rfl
    rw [hgi, hgj]

/-- Witness for `c7_indicator_interpolation`: three rectangles, evaluated at
the integer index `1` and midway between `1` and `2`, plus the
single-rectangle case. -/
theorem c7_indicator_interpolation_witness :
    (TabBar.indicatorWidth ((1 : ℕ) : ℚ) [⟨10, 0⟩, ⟨20, 10⟩, ⟨40, 30⟩] =
      some (⟨20, 10⟩ : TabBar.ItemLayout).width) ∧
    (TabBar.indicatorWidth (((1 : ℕ) : ℚ) + 1 / 2)
        [⟨10, 0⟩, ⟨20, 10⟩, ⟨40, 30⟩] =
      some ((⟨20, 10⟩ : TabBar.ItemLayout).width +
        1 / 2 * ((⟨40, 30⟩ : TabBar.ItemLayout).width -
          (⟨20, 10⟩ : TabBar.ItemLayout).width))) ∧
    (TabBar.indicatorWidth 5 [⟨7, 3⟩] =
      some (⟨7, 3⟩ : TabBar.ItemLayout).width ∧
    TabBar.indicatorTransform 5 [⟨7, 3⟩] 100 = none) := by
  have h := c7_indicator_interpolation [⟨10, 0⟩, ⟨20, 10⟩, ⟨40, 30⟩] 1 (1 / 2)
    5 100 ⟨20, 10⟩ ⟨40, 30⟩ ⟨7, 3⟩
  exact ⟨h.1 (by norm_num) rfl,
    h.2.1 (by norm_num) (by norm_num) (by norm_num) rfl rfl, h.2.2⟩

/-- C1: the claim asserts every produced fixed-width layout has
`width = w / n` and `x = i * (w / n)`; the initial state
(`scrollEnabled = false`, `showDefaultTabs = true`, 3 tabs, container 300)
instead assigns tab 0 the rectangle `{width := 100, x := 100}`, not
`{width := 100, x := 0}` — the initial state uses `x = tabWidth` constantly
whenever `nTabs ≠ 2`. -/
theorem c1_counterexample :
    (TabBar.initialItemsLayout false true 300 ["a", "b", "c"]).get? 0 ≠
      some { width := 300 / 3, x := 0 * (300 / 3) } ∧
    (TabBar.initialItemsLayout false true 300 ["a", "b", "c"]).get? 0 =
      some { width := 100, x := 100 } := by
  constructor
  · norm_num [TabBar.initialItemsLayout, List.range_succ]
  · norm_num [TabBar.initialItemsLayout, List.range_succ]

/-- C1 (amended): in fixed-width mode the layout recomputed by the resize
effect assigns each tab index `i` the rectangle `width = w / n`,
`x = i * (w / n)`; consequently widths sum to `w` and each tab's `x` is the
sum of the preceding widths. The initial fixed-width state follows this
formula only in the `showDefaultTabs = true`, `n = 2` configuration, where it
coincides with the resize-effect layout. -/
theorem c1_fixed_width_layout (w : ℚ) (names : List String) (h : names ≠ []) :
    (∀ i, i < names.length →
      (TabBar.resizeItemsLayout w names)[i]? =
        some { width := w / names.length, x := (i : ℚ) * (w / names.length) }) ∧
    ((TabBar.resizeItemsLayout w names).map TabBar.ItemLayout.width).sum = w ∧
    (∀ i, i ≤ names.length →
      ((((TabBar.resizeItemsLayout w names).map TabBar.ItemLayout.width).take i).sum =
        (i : ℚ) * (w / names.length))) ∧
    (∀ names2 : List String, names2.length = 2 →
      TabBar.initialItemsLayout false true w names2 = TabBar.resizeItemsLayout w names2) := by
  have hn : names.length ≠ 0 := fun hl => h (List.length_eq_zero.mp hl)
  have hq : ((names.length : ℚ)) ≠ 0 := Nat.cast_ne_zero.mpr hn
  have hw : (TabBar.resizeItemsLayout w names).map TabBar.ItemLayout.width =
      List.replicate names.length (w / names.length) := by
    unfold TabBar.resizeItemsLayout
    rw [List.map_map]
    rw [show (TabBar.ItemLayout.width ∘ fun i : ℕ =>
        ({ width := w / names.length, x := (i : ℚ) * (w / names.length) } :
          TabBar.ItemLayout)) =
        Function.const ℕ (w / names.length) from rfl]
    rw [List.map_const, List.length_range]
  refine ⟨?_, ?_, ?_, ?_⟩
  · intro i hi
    simp [TabBar.resizeItemsLayout, List.getElem?_map, List.getElem?_range hi]
  · rw [hw, List.sum_replicate, nsmul_eq_mul, mul_div_cancel₀ _ hq]
  · intro i hi
    rw [hw, List.take_replicate, Nat.min_eq_left hi, List.sum_replicate, nsmul_eq_mul]
  · intro names2 h2
    simp [TabBar.initialItemsLayout, TabBar.resizeItemsLayout, h2]

/-- Witness for `c1_fixed_width_layout` at `w = 10`, two tabs. -/
theorem c1_fixed_width_layout_witness :
    (TabBar.resizeItemsLayout 10 ["a", "b"])[1]? = some { width := 5, x := 5 } ∧
    ((TabBar.resizeItemsLayout 10 ["a", "b"]).map TabBar.ItemLayout.width).sum = 10 := by
  have h := c1_fixed_width_layout 10 ["a", "b"] (by decide)
  refine ⟨?_, h.2.1⟩
  have h1 := h.1 1 (by decide)
  norm_num at h1 ⊢
  exact h1

namespace TabItem

/-- The constant `DEFAULT_COLOR` from TabItem.tsx line 11. -/
def DEFAULT_COLOR : String := "rgba(0, 0, 0, 1)"

/-- The animated label color of a tab item (TabItem.tsx lines 41–49):
`Math.abs(index - indexDecimal.value) < 0.5 ? activeColor : inactiveColor`. -/
def labelColor (index : ℕ) (indexDecimal : ℚ)
    (activeColor inactiveColor : String) : String :=
  if |(index : ℚ) - indexDecimal| < 1 / 2 then activeColor else inactiveColor

/-- The label color after applying the destructuring defaults
(TabItem.tsx lines 31–32): an absent `activeColor` / `inactiveColor` prop
falls back to `DEFAULT_COLOR`. -/
def labelColorResolved (index : ℕ) (indexDecimal : ℚ)
    (activeColor? inactiveColor? : Option String) : String :=
  labelColor index indexDecimal (activeColor?.getD DEFAULT_COLOR)
    (inactiveColor?.getD DEFAULT_COLOR)

end TabItem

/-- C4: with distinct active/inactive colors, the rendered label color is the
active color iff `|p - f| < 0.5`; at exactly `|p - f| = 0.5` it is the
inactive color (discrete snap, no blending). -/
theorem c4_color_snap (p : ℕ) (f : ℚ) (a i : String) (hne : a ≠ i) :
    (TabItem.labelColor p f a i = a ↔ |(p : ℚ) - f| < 1 / 2) ∧
    (|(p : ℚ) - f| = 1 / 2 → TabItem.labelColor p f a i = i) := by
  unfold TabItem.labelColor
  constructor
  · constructor
    · intro hc
      by_contra hlt
      rw [if_neg hlt] at hc
      exact hne hc.symm
    · intro hlt
      exact if_pos hlt
  · intro hb
    refine if_neg ?_
    rw [hb]
    exact lt_irrefl _

/-- Witness for `c4_color_snap` at `p = 1`, `f = 7/10`. -/
theorem c4_color_snap_witness :
    (TabItem.labelColor 1 (7 / 10) "red" "gray" = "red" ↔
      |((1 : ℕ) : ℚ) - 7 / 10| < 1 / 2) ∧
    (|((1 : ℕ) : ℚ) - 7 / 10| = 1 / 2 →
      TabItem.labelColor 1 (7 / 10) "red" "gray" = "gray") :=
  c4_color_snap 1 (7 / 10) "red" "gray" (by decide)

/-- C10: when neither `activeColor` nor `inactiveColor` is supplied, both
default to `DEFAULT_COLOR = "rgba(0, 0, 0, 1)"`, so the rendered label color
is independent of the fractional index: the active/inactive snap is
unobservable under default colors. -/
theorem c10_default_colors_unobservable (p : ℕ) (f₁ f₂ : ℚ) :
    TabItem.labelColorResolved p f₁ none none =
      TabItem.labelColorResolved p f₂ none none ∧
    TabItem.labelColorResolved p f₁ none none = "rgba(0, 0, 0, 1)" := by
  unfold TabItem.labelColorResolved TabItem.labelColor TabItem.DEFAULT_COLOR
  constructor
  · split <;> split <;> rfl
  · split <;> rfl
